import Mathlib

/-!
Verification of the sensoff transect-correction core (`sensoff/sensoff.py`).

The embedding models Python floats as real numbers, with `Option ℝ` for a
possibly-NaN value (`none` = `float("nan")`) and `Except Unit` for a
computation that can raise `ZeroDivisionError`.  NaN sentinels are produced
and consumed exactly where the source produces and consumes them; ordinary
finite-float arithmetic is modelled exactly by real arithmetic.
-/

namespace Sensoff

noncomputable section

abbrev Point : Type := ℝ × ℝ

/-- Real-number semantics of Python's `math.atan2(y, x)` on finite inputs:
the angle of the vector `(x, y)`, in `(-π, π]`, with `atan2 0 0 = 0`
(as `math.atan2(0.0, 0.0)` returns `0.0`). -/
def atan2 (y x : ℝ) : ℝ :=
  if 0 < x then Real.arctan (y / x)
  else if x < 0 then
    (if 0 ≤ y then Real.arctan (y / x) + Real.pi else Real.arctan (y / x) - Real.pi)
  else if 0 < y then Real.pi / 2
  else if y < 0 then -(Real.pi / 2)
  else 0

/-- Python's `math.isclose(a, b)` with the default tolerances
`rel_tol = 1e-9`, `abs_tol = 0.0`:
`abs(a-b) <= max(rel_tol * max(abs(a), abs(b)), abs_tol)`. -/
def isclose (a b : ℝ) : Prop :=
  |a - b| ≤ (1 / 1000000000) * max |a| |b|

instance (a b : ℝ) : Decidable (isclose a b) :=
  inferInstanceAs (Decidable (|a - b| ≤ (1 / 1000000000) * max |a| |b|))

/-- `pairwise` from the source: `s -> (s0,s1), (s1,s2), (s2,s3), ...`. -/
def pairwise : List α → List (α × α)
  | a :: b :: rest => (a, b) :: pairwise (b :: rest)
  | _ => []

/-- The `angles` list of `platform_headings`:
`atan2(y1 - y0, x1 - x0)` for each consecutive pair of points. -/
def legAngles (pts : List Point) : List ℝ :=
  (pairwise pts).map (fun pq => atan2 (pq.2.2 - pq.1.2) (pq.2.1 - pq.1.1))

/-- The `distances` list of `platform_headings`:
`hypot(x1 - x0, y1 - y0)` for each consecutive pair of points. -/
def legDists (pts : List Point) : List ℝ :=
  (pairwise pts).map (fun pq => Real.sqrt ((pq.2.1 - pq.1.1) ^ 2 + (pq.2.2 - pq.1.2) ^ 2))

/-- Python's `sorted([p, q])` on a two-element list of pairs: stable sort
under lexicographic comparison of pairs. -/
def sort2 (p q : ℝ × ℝ) : (ℝ × ℝ) × (ℝ × ℝ) :=
  if p.1 < q.1 then (p, q)
  else if q.1 < p.1 then (q, p)
  else if p.2 ≤ q.2 then (p, q)
  else (q, p)

/-- One iteration of the interior loop of `platform_headings`, for adjacent
leg angles `a0, a1` and leg lengths `d0, d1`:

    (angle0, weight0), (angle1, weight1) = sorted([(a0, d1), (a1, d0)])
    if isclose(angle1 - angle0, pi): append nan
    if angle1 - angle0 > pi: angle0 += 2*pi
    ave = (weight0*angle0 + weight1*angle1) / (weight0 + weight1)
    if ave > pi: ave -= 2*pi

`.ok none` is the `float("nan")` sentinel; `.error ()` models Python raising
`ZeroDivisionError` when the float division's denominator `weight0 + weight1`
is zero. -/
def headingStep (a0 a1 d0 d1 : ℝ) : Except Unit (Option ℝ) :=
  let s := sort2 (a0, d1) (a1, d0)
  if isclose (s.2.1 - s.1.1) Real.pi then .ok none
  else
    let b0 := if Real.pi < s.2.1 - s.1.1 then s.1.1 + 2 * Real.pi else s.1.1
    if s.1.2 + s.2.2 = 0 then .error ()
    else
      let ave := (s.1.2 * b0 + s.2.2 * s.2.1) / (s.1.2 + s.2.2)
      .ok (some (if Real.pi < ave then ave - 2 * Real.pi else ave))

/-- The interior of the heading list: `headingStep` applied to each element of
`zip(pairwise(angles), pairwise(distances))`, aborting at the first
`ZeroDivisionError` exactly as the Python loop does. -/
def interiorHeadings : List ((ℝ × ℝ) × (ℝ × ℝ)) → Except Unit (List (Option ℝ))
  | [] => .ok []
  | x :: rest =>
    match headingStep x.1.1 x.1.2 x.2.1 x.2.2 with
    | .error e => .error e
    | .ok h =>
      match interiorHeadings rest with
      | .error e => .error e
      | .ok hs => .ok (h :: hs)

/-- `zip(pairwise(angles), pairwise(distances))` from the source loop. -/
def legSteps (pts : List Point) : List ((ℝ × ℝ) × (ℝ × ℝ)) :=
  (pairwise (legAngles pts)).zip (pairwise (legDists pts))

/-- `platform_headings` from the source: `[nan]`, then one heading per
interior point, then `[nan]`. -/
def platform_headings (gps_coords : List Point) : Except Unit (List (Option ℝ)) :=
  match interiorHeadings (legSteps gps_coords) with
  | .error e => .error e
  | .ok interior => .ok ((none :: interior) ++ [none])

/-- Sensor projection of a single point, the loop body of `offset_coords`:
`(x + rdist*cos(angle + gamma), y + rdist*sin(angle + gamma))`.
A `none` (NaN) heading yields `none` coordinates: in IEEE-754 arithmetic
`cos(nan)` is NaN, `rdist * nan` is NaN even when `rdist = 0`, and
`x + nan` is NaN. -/
def sensPoint (rdist gamma : ℝ) (p : Point) (h : Option ℝ) : Option ℝ × Option ℝ :=
  match h with
  | none => (none, none)
  | some angle =>
      (some (p.1 + rdist * Real.cos (angle + gamma)),
       some (p.2 + rdist * Real.sin (angle + gamma)))

/-- `offset_coords` from the source, data rows only (the constant leading
header row `["xgps", "ygps", "xsens", "ysens"]` of strings is presentation
glue and is not part of the numeric model).  Note the source zips
`gps_coords` with `headings`, truncating to the shorter list. -/
def offset_coords (gps_coords : List Point) (headings : List (Option ℝ))
    (inline_offset lateral_offset : ℝ) : List (ℝ × ℝ × Option ℝ × Option ℝ) :=
  let gamma := atan2 lateral_offset inline_offset
  let rdist := Real.sqrt (lateral_offset ^ 2 + inline_offset ^ 2)
  (gps_coords.zip headings).map (fun ph =>
    (ph.1.1, ph.1.2, (sensPoint rdist gamma ph.1 ph.2).1, (sensPoint rdist gamma ph.1 ph.2).2))

/-- `sensor_coordinates` from the source, restricted to its computational
core: the CSV-reading front end `read_xy` is I/O glue, so the pipeline is
modelled on an already-parsed point sequence. -/
def sensor_coordinates (pts : List Point) (ioff loff : ℝ) :
    Except Unit (List (ℝ × ℝ × Option ℝ × Option ℝ)) :=
  match platform_headings pts with
  | .error e => .error e
  | .ok headings => .ok (offset_coords pts headings ioff loff)

/-- Modelled from the spec: the weighted circular average of §4.1 steps 3-4
stated in the spec's own words — weight the incoming angle `a0` by the
outgoing length `d1` and vice versa, add `2π` to the smaller angle when the
angular difference exceeds `π`, and renormalize a result exceeding `π` by
subtracting `2π`.  Used only to compare the source's computation against the
spec's description. -/
def specWeightedAvg (a0 a1 d0 d1 : ℝ) : ℝ :=
  let b0 := if Real.pi < max a0 a1 - min a0 a1 ∧ a0 < a1 then a0 + 2 * Real.pi else a0
  let b1 := if Real.pi < max a0 a1 - min a0 a1 ∧ a1 < a0 then a1 + 2 * Real.pi else a1
  let ave := (d1 * b0 + d0 * b1) / (d1 + d0)
  if Real.pi < ave then ave - 2 * Real.pi else ave

/-! ### Basic facts about the model -/

lemma pairwise_length {α : Type} (l : List α) : (pairwise l).length = l.length - 1 := by
  induction l with
  | nil => simp [pairwise]
  | cons a t ih =>
    cases t with
    | nil => simp [pairwise]
    | cons b rest => simp [pairwise] at ih ⊢; omega

lemma pairwise_getElem? {α : Type} (l : List α) (i : ℕ) (a b : α)
    (ha : l[i]? = some a) (hb : l[i + 1]? = some b) : (pairwise l)[i]? = some (a, b) := by
  induction l generalizing i with
  | nil => simp at ha
  | cons x t ih =>
    cases t with
    | nil => simp at hb
    | cons y rest =>
      cases i with
      | zero => simp at ha hb; simp [pairwise, ha, hb]
      | succ j =>
        rw [List.getElem?_cons_succ] at ha hb
        rw [pairwise, List.getElem?_cons_succ]
        exact ih j ha hb

lemma pairwise_mem {α : Type} (l : List α) (p : α × α) (hp : p ∈ pairwise l) :
    p.1 ∈ l ∧ p.2 ∈ l := by
  induction l with
  | nil => simp [pairwise] at hp
  | cons x t ih =>
    cases t with
    | nil => simp [pairwise] at hp
    | cons y rest =>
      rw [pairwise, List.mem_cons] at hp
      rcases hp with h | h
      · subst h; constructor <;> simp
      · have := ih h
        exact ⟨List.mem_cons_of_mem _ this.1, List.mem_cons_of_mem _ this.2⟩

lemma zip_getElem? {α β : Type} (l : List α) (m : List β) (i : ℕ) (a : α) (b : β)
    (ha : l[i]? = some a) (hb : m[i]? = some b) : (l.zip m)[i]? = some (a, b) := by
  induction l generalizing m i with
  | nil => simp at ha
  | cons x t ih =>
    cases m with
    | nil => simp at hb
    | cons y s =>
      cases i with
      | zero => simp at ha hb; simp [ha, hb]
      | succ j =>
        rw [List.getElem?_cons_succ] at ha hb
        rw [List.zip_cons_cons, List.getElem?_cons_succ]
        exact ih s j ha hb

lemma atan2_range (y x : ℝ) : -Real.pi < atan2 y x ∧ atan2 y x ≤ Real.pi := by
  have hpi := Real.pi_pos
  have h1 := Real.arctan_lt_pi_div_two (y / x)
  have h2 := Real.neg_pi_div_two_lt_arctan (y / x)
  unfold atan2
  split
  · constructor <;> nlinarith
  · split
    · rename_i hx hx'
      split
      · rename_i hy
        have hq : y / x ≤ 0 := div_nonpos_iff.mpr (Or.inl ⟨hy, hx'.le⟩)
        have h3 : Real.arctan (y / x) ≤ 0 := by
          calc Real.arctan (y / x) ≤ Real.arctan 0 := Real.arctan_strictMono.monotone hq
          _ = 0 := Real.arctan_zero
        constructor <;> nlinarith
      · rename_i hy
        have hq : 0 < y / x := div_pos_of_neg_of_neg (not_le.mp hy) hx'
        have h3 : 0 < Real.arctan (y / x) := by
          calc (0 : ℝ) = Real.arctan 0 := Real.arctan_zero.symm
          _ < Real.arctan (y / x) := Real.arctan_strictMono hq
        constructor <;> nlinarith
    · split
      · constructor <;> nlinarith
      · split
        · constructor <;> nlinarith
        · constructor <;> nlinarith

lemma atan2_pos_x {y x : ℝ} (hx : 0 < x) : atan2 y x = Real.arctan (y / x) := by
  unfold atan2; rw [if_pos hx]

lemma atan2_zero_zero : atan2 0 0 = 0 := by
  unfold atan2; norm_num

lemma atan2_zero_one : atan2 0 1 = 0 := by
  rw [atan2_pos_x one_pos]; norm_num

lemma atan2_pos_y {y : ℝ} (hy : 0 < y) : atan2 y 0 = Real.pi / 2 := by
  unfold atan2; rw [if_neg (lt_irrefl 0), if_neg (lt_irrefl 0), if_pos hy]

lemma atan2_neg_one_one : atan2 (-1) 1 = -(Real.pi / 4) := by
  rw [atan2_pos_x one_pos]
  norm_num [Real.arctan_neg, Real.arctan_one]

lemma isclose_refl (a : ℝ) : isclose a a := by
  unfold isclose
  simp only [sub_self, abs_zero]
  positivity

lemma not_isclose_of_gap {a b : ℝ} (h : (1 / 1000000000) * max |a| |b| < |a - b|) :
    ¬ isclose a b := by
  unfold isclose; exact not_le.mpr h

lemma not_isclose_zero_pi : ¬ isclose 0 Real.pi := by
  have hpi := Real.pi_pos
  apply not_isclose_of_gap
  rw [abs_of_nonneg (le_of_lt hpi), abs_zero, max_eq_right (le_of_lt hpi)]
  rw [abs_of_nonpos (by linarith)]
  nlinarith

lemma interiorHeadings_ok_length (l : List ((ℝ × ℝ) × (ℝ × ℝ))) (out : List (Option ℝ))
    (hok : interiorHeadings l = .ok out) : out.length = l.length := by
  induction l generalizing out with
  | nil => rw [interiorHeadings] at hok; cases hok; rfl
  | cons z t ih =>
    rw [interiorHeadings] at hok
    cases hz : headingStep z.1.1 z.1.2 z.2.1 z.2.2 with
    | error e => rw [hz] at hok; cases hok
    | ok h =>
      rw [hz] at hok
      cases ht : interiorHeadings t with
      | error e => rw [ht] at hok; cases hok
      | ok hs =>
        rw [ht] at hok
        cases hok
        simp [ih hs ht]

lemma interiorHeadings_ok_getElem? (l : List ((ℝ × ℝ) × (ℝ × ℝ))) (out : List (Option ℝ))
    (hok : interiorHeadings l = .ok out) (i : ℕ) (x : (ℝ × ℝ) × (ℝ × ℝ))
    (hx : l[i]? = some x) :
    ∃ h, out[i]? = some h ∧ headingStep x.1.1 x.1.2 x.2.1 x.2.2 = .ok h := by
  induction l generalizing out i with
  | nil => simp at hx
  | cons z t ih =>
    rw [interiorHeadings] at hok
    cases hz : headingStep z.1.1 z.1.2 z.2.1 z.2.2 with
    | error e => rw [hz] at hok; cases hok
    | ok h =>
      rw [hz] at hok
      cases ht : interiorHeadings t with
      | error e => rw [ht] at hok; cases hok
      | ok hs =>
        rw [ht] at hok
        cases hok
        cases i with
        | zero =>
          simp only [List.getElem?_cons_zero, Option.some.injEq] at hx
          subst hx
          exact ⟨h, by simp, hz⟩
        | succ j =>
          rw [List.getElem?_cons_succ] at hx
          obtain ⟨h', hh', hstep⟩ := ih hs ht j hx
          exact ⟨h', by simpa using hh', hstep⟩

lemma interiorHeadings_ok_mem (l : List ((ℝ × ℝ) × (ℝ × ℝ))) (out : List (Option ℝ))
    (hok : interiorHeadings l = .ok out) (b : Option ℝ) (hb : b ∈ out) :
    ∃ x ∈ l, headingStep x.1.1 x.1.2 x.2.1 x.2.2 = .ok b := by
  induction l generalizing out with
  | nil => rw [interiorHeadings] at hok; cases hok; simp at hb
  | cons z t ih =>
    rw [interiorHeadings] at hok
    cases hz : headingStep z.1.1 z.1.2 z.2.1 z.2.2 with
    | error e => rw [hz] at hok; cases hok
    | ok h =>
      rw [hz] at hok
      cases ht : interiorHeadings t with
      | error e => rw [ht] at hok; cases hok
      | ok hs =>
        rw [ht] at hok
        cases hok
        rcases List.mem_cons.mp hb with hbz | hbt
        · exact ⟨z, List.mem_cons_self z t, by rw [hz, hbz]⟩
        · obtain ⟨x, hxl, hstep⟩ := ih hs ht hbt
          exact ⟨x, List.mem_cons_of_mem _ hxl, hstep⟩

lemma platform_headings_ok (pts : List Point) (hs : List (Option ℝ))
    (hok : platform_headings pts = .ok hs) :
    ∃ interior, interiorHeadings (legSteps pts) = .ok interior ∧
      hs = (none :: interior) ++ [none] := by
  rw [platform_headings] at hok
  cases hi : interiorHeadings (legSteps pts) with
  | error e => rw [hi] at hok; cases hok
  | ok interior =>
    rw [hi] at hok
    cases hok
    exact ⟨interior, rfl, rfl⟩

lemma legSteps_length (pts : List Point) : (legSteps pts).length = pts.length - 2 := by
  simp [legSteps, legAngles, legDists, pairwise_length]
  omega

lemma platform_headings_ok_length (pts : List Point) (hs : List (Option ℝ))
    (hok : platform_headings pts = .ok hs) : hs.length = max pts.length 2 := by
  obtain ⟨interior, hok', rfl⟩ := platform_headings_ok pts hs hok
  have h1 := interiorHeadings_ok_length _ _ hok'
  have h2 := legSteps_length pts
  simp [h1, h2]
  omega

lemma wavg_le_max (u v w0 w1 : ℝ) (h0 : 0 ≤ w0) (h1 : 0 ≤ w1) (hs : 0 < w0 + w1) :
    (w0 * u + w1 * v) / (w0 + w1) ≤ max u v := by
  rw [div_le_iff₀ hs]
  nlinarith [le_max_left u v, le_max_right u v]

lemma min_le_wavg (u v w0 w1 : ℝ) (h0 : 0 ≤ w0) (h1 : 0 ≤ w1) (hs : 0 < w0 + w1) :
    min u v ≤ (w0 * u + w1 * v) / (w0 + w1) := by
  rw [le_div_iff₀ hs]
  nlinarith [min_le_left u v, min_le_right u v]

lemma headingStep_same (a d0 d1 : ℝ) (hd : d0 + d1 ≠ 0) (hle : a ≤ Real.pi) :
    headingStep a a d0 d1 = .ok (some a) := by
  have hnc : ¬ isclose (a - a) Real.pi := by rw [sub_self]; exact not_isclose_zero_pi
  have hng : ¬ Real.pi < a - a := by rw [sub_self]; linarith [Real.pi_pos]
  rcases le_or_lt d1 d0 with hcmp | hcmp
  · have hs2 : sort2 (a, d1) (a, d0) = ((a, d1), (a, d0)) := by
      unfold sort2
      rw [if_neg (lt_irrefl a), if_neg (lt_irrefl a), if_pos hcmp]
    have hsum : d1 + d0 ≠ 0 := fun hc => hd (by linarith)
    have hav : (d1 * a + d0 * a) / (d1 + d0) = a := by
      rw [div_eq_iff hsum]; ring
    simp only [headingStep, hs2]
    rw [if_neg hnc, if_neg hng, if_neg hsum, hav, if_neg (not_lt.mpr hle)]
  · have hs2 : sort2 (a, d1) (a, d0) = ((a, d0), (a, d1)) := by
      unfold sort2
      rw [if_neg (lt_irrefl a), if_neg (lt_irrefl a), if_neg (not_le.mpr hcmp)]
    have hav : (d0 * a + d1 * a) / (d0 + d1) = a := by
      rw [div_eq_iff hd]; ring
    simp only [headingStep, hs2]
    rw [if_neg hnc, if_neg hng, if_neg hd, hav, if_neg (not_lt.mpr hle)]

lemma headingStep_opposite (a0 a1 d0 d1 : ℝ) (h : max a0 a1 - min a0 a1 = Real.pi) :
    headingStep a0 a1 d0 d1 = .ok none := by
  have hpi := Real.pi_pos
  have hne : a0 ≠ a1 := by
    intro he
    rw [he, max_self, min_self, sub_self] at h
    linarith
  rcases lt_or_gt_of_ne hne with hlt | hgt
  · have hs2 : sort2 (a0, d1) (a1, d0) = ((a0, d1), (a1, d0)) := by
      unfold sort2; rw [if_pos hlt]
    have hdiff : a1 - a0 = Real.pi := by
      rwa [max_eq_right hlt.le, min_eq_left hlt.le] at h
    have hc : isclose (a1 - a0) Real.pi := by rw [hdiff]; exact isclose_refl _
    simp only [headingStep, hs2]
    rw [if_pos hc]
  · have hs2 : sort2 (a0, d1) (a1, d0) = ((a1, d0), (a0, d1)) := by
      unfold sort2; rw [if_neg (asymm hgt), if_pos hgt]
    have hdiff : a0 - a1 = Real.pi := by
      rwa [max_eq_left hgt.le, min_eq_right hgt.le] at h
    have hc : isclose (a0 - a1) Real.pi := by rw [hdiff]; exact isclose_refl _
    simp only [headingStep, hs2]
    rw [if_pos hc]

lemma finalIf_congr {x y : ℝ} (h : x = y) :
    (if Real.pi < x then x - 2 * Real.pi else x)
      = (if Real.pi < y then y - 2 * Real.pi else y) := by rw [h]

lemma headingStep_eq_spec (a0 a1 d0 d1 : ℝ) (h0 : 0 < d0) (h1 : 0 < d1)
    (hopp : ¬ isclose (max a0 a1 - min a0 a1) Real.pi) :
    headingStep a0 a1 d0 d1 = .ok (some (specWeightedAvg a0 a1 d0 d1)) := by
  rcases lt_trichotomy a0 a1 with hlt | heq | hgt
  · have hs2 : sort2 (a0, d1) (a1, d0) = ((a0, d1), (a1, d0)) := by
      unfold sort2; rw [if_pos hlt]
    have hmax : max a0 a1 = a1 := max_eq_right hlt.le
    have hmin : min a0 a1 = a0 := min_eq_left hlt.le
    have hopp' : ¬ isclose (a1 - a0) Real.pi := by rwa [hmax, hmin] at hopp
    have hsum : d1 + d0 ≠ 0 := by positivity
    simp only [headingStep, hs2, specWeightedAvg, hmax, hmin]
    rw [if_neg hopp', if_neg hsum]
    rcases lt_or_le Real.pi (a1 - a0) with hbig | hsmall
    · have hc1 : Real.pi < a1 - a0 ∧ a0 < a1 := ⟨hbig, hlt⟩
      have hc2 : ¬ (Real.pi < a1 - a0 ∧ a1 < a0) := fun hc => (asymm hlt) hc.2
      rw [if_pos hbig, if_pos hc1, if_neg hc2]
    · have hc1 : ¬ (Real.pi < a1 - a0 ∧ a0 < a1) := fun hc => (not_lt.mpr hsmall) hc.1
      have hc2 : ¬ (Real.pi < a1 - a0 ∧ a1 < a0) := fun hc => (not_lt.mpr hsmall) hc.1
      rw [if_neg (not_lt.mpr hsmall), if_neg hc1, if_neg hc2]
  · subst heq
    have hsum01 : d0 + d1 ≠ 0 := by positivity
    have hsum10 : d1 + d0 ≠ 0 := by positivity
    have hpi := Real.pi_pos
    have hnc : ¬ isclose (a0 - a0) Real.pi := by rw [sub_self]; exact not_isclose_zero_pi
    have hng2 : ¬ Real.pi < a0 - a0 := by rw [sub_self]; linarith
    have hngc : ¬ (Real.pi < max a0 a0 - min a0 a0 ∧ a0 < a0) := fun hc => lt_irrefl a0 hc.2
    rcases le_or_lt d1 d0 with hcmp | hcmp
    · have hs2 : sort2 (a0, d1) (a0, d0) = ((a0, d1), (a0, d0)) := by
        unfold sort2
        rw [if_neg (lt_irrefl a0), if_neg (lt_irrefl a0), if_pos hcmp]
      simp only [headingStep, hs2, specWeightedAvg]
      rw [if_neg hnc, if_neg hng2, if_neg hsum10, if_neg hngc]
    · have hs2 : sort2 (a0, d1) (a0, d0) = ((a0, d0), (a0, d1)) := by
        unfold sort2
        rw [if_neg (lt_irrefl a0), if_neg (lt_irrefl a0), if_neg (not_le.mpr hcmp)]
      simp only [headingStep, hs2, specWeightedAvg]
      rw [if_neg hnc, if_neg hng2, if_neg hsum01, if_neg hngc]
      exact congrArg (fun z => Except.ok (some z)) (finalIf_congr (by ring))
  · have hs2 : sort2 (a0, d1) (a1, d0) = ((a1, d0), (a0, d1)) := by
      unfold sort2; rw [if_neg (asymm hgt), if_pos hgt]
    have hmax : max a0 a1 = a0 := max_eq_left hgt.le
    have hmin : min a0 a1 = a1 := min_eq_right hgt.le
    have hopp' : ¬ isclose (a0 - a1) Real.pi := by rwa [hmax, hmin] at hopp
    have hsum : d0 + d1 ≠ 0 := by positivity
    simp only [headingStep, hs2, specWeightedAvg, hmax, hmin]
    rw [if_neg hopp', if_neg hsum]
    rcases lt_or_le Real.pi (a0 - a1) with hbig | hsmall
    · have hc1 : ¬ (Real.pi < a0 - a1 ∧ a0 < a1) := fun hc => (asymm hgt) hc.2
      have hc2 : Real.pi < a0 - a1 ∧ a1 < a0 := ⟨hbig, hgt⟩
      rw [if_pos hbig, if_neg hc1, if_pos hc2]
      exact congrArg (fun z => Except.ok (some z)) (finalIf_congr (by ring))
    · have hc1 : ¬ (Real.pi < a0 - a1 ∧ a0 < a1) := fun hc => (not_lt.mpr hsmall) hc.1
      have hc2 : ¬ (Real.pi < a0 - a1 ∧ a1 < a0) := fun hc => (not_lt.mpr hsmall) hc.1
      rw [if_neg (not_lt.mpr hsmall), if_neg hc1, if_neg hc2]
      exact congrArg (fun z => Except.ok (some z)) (finalIf_congr (by ring))

lemma headingStep_ok_some (a0 a1 d0 d1 h : ℝ)
    (hok : headingStep a0 a1 d0 d1 = .ok (some h)) :
    ∃ al be w0 w1, al ≤ be ∧
      ((al = a0 ∧ be = a1 ∧ w0 = d1 ∧ w1 = d0) ∨ (al = a1 ∧ be = a0 ∧ w0 = d0 ∧ w1 = d1)) ∧
      ¬ isclose (be - al) Real.pi ∧ w0 + w1 ≠ 0 ∧
      h = (if Real.pi <
              (w0 * (if Real.pi < be - al then al + 2 * Real.pi else al) + w1 * be) / (w0 + w1)
           then (w0 * (if Real.pi < be - al then al + 2 * Real.pi else al) + w1 * be) / (w0 + w1)
                - 2 * Real.pi
           else (w0 * (if Real.pi < be - al then al + 2 * Real.pi else al) + w1 * be) / (w0 + w1)) := by
  by_cases hc1 : a0 < a1
  · have hs2 : sort2 (a0, d1) (a1, d0) = ((a0, d1), (a1, d0)) := by
      unfold sort2; rw [if_pos hc1]
    simp only [headingStep, hs2] at hok
    by_cases hcl : isclose (a1 - a0) Real.pi
    · rw [if_pos hcl] at hok; cases hok
    · rw [if_neg hcl] at hok
      by_cases hz : d1 + d0 = 0
      · rw [if_pos hz] at hok; cases hok
      · rw [if_neg hz] at hok
        simp only [Except.ok.injEq, Option.some.injEq] at hok
        exact ⟨a0, a1, d1, d0, hc1.le, Or.inl ⟨rfl, rfl, rfl, rfl⟩, hcl, hz, hok.symm⟩
  · by_cases hc2 : a1 < a0
    · have hs2 : sort2 (a0, d1) (a1, d0) = ((a1, d0), (a0, d1)) := by
        unfold sort2; rw [if_neg hc1, if_pos hc2]
      simp only [headingStep, hs2] at hok
      by_cases hcl : isclose (a0 - a1) Real.pi
      · rw [if_pos hcl] at hok; cases hok
      · rw [if_neg hcl] at hok
        by_cases hz : d0 + d1 = 0
        · rw [if_pos hz] at hok; cases hok
        · rw [if_neg hz] at hok
          simp only [Except.ok.injEq, Option.some.injEq] at hok
          exact ⟨a1, a0, d0, d1, hc2.le, Or.inr ⟨rfl, rfl, rfl, rfl⟩, hcl, hz, hok.symm⟩
    · have heq : a0 = a1 := le_antisymm (not_lt.mp hc2) (not_lt.mp hc1)
      subst heq
      by_cases hc3 : d1 ≤ d0
      · have hs2 : sort2 (a0, d1) (a0, d0) = ((a0, d1), (a0, d0)) := by
          unfold sort2; rw [if_neg hc1, if_neg hc1, if_pos hc3]
        simp only [headingStep, hs2] at hok
        by_cases hcl : isclose (a0 - a0) Real.pi
        · rw [if_pos hcl] at hok; cases hok
        · rw [if_neg hcl] at hok
          by_cases hz : d1 + d0 = 0
          · rw [if_pos hz] at hok; cases hok
          · rw [if_neg hz] at hok
            simp only [Except.ok.injEq, Option.some.injEq] at hok
            exact ⟨a0, a0, d1, d0, le_refl a0, Or.inl ⟨rfl, rfl, rfl, rfl⟩, hcl, hz, hok.symm⟩
      · have hs2 : sort2 (a0, d1) (a0, d0) = ((a0, d0), (a0, d1)) := by
          unfold sort2; rw [if_neg hc1, if_neg hc1, if_neg hc3]
        simp only [headingStep, hs2] at hok
        by_cases hcl : isclose (a0 - a0) Real.pi
        · rw [if_pos hcl] at hok; cases hok
        · rw [if_neg hcl] at hok
          by_cases hz : d0 + d1 = 0
          · rw [if_pos hz] at hok; cases hok
          · rw [if_neg hz] at hok
            simp only [Except.ok.injEq, Option.some.injEq] at hok
            exact ⟨a0, a0, d0, d1, le_refl a0, Or.inr ⟨rfl, rfl, rfl, rfl⟩, hcl, hz, hok.symm⟩

lemma headingStep_ok_range (a0 a1 d0 d1 h : ℝ)
    (ha0l : -Real.pi < a0) (ha0r : a0 ≤ Real.pi)
    (ha1l : -Real.pi < a1) (ha1r : a1 ≤ Real.pi)
    (hd0 : 0 ≤ d0) (hd1 : 0 ≤ d1)
    (hok : headingStep a0 a1 d0 d1 = .ok (some h)) :
    -Real.pi < h ∧ h ≤ Real.pi := by
  have hpi := Real.pi_pos
  obtain ⟨al, be, w0, w1, hle, hid, _, hzz, hval⟩ := headingStep_ok_some a0 a1 d0 d1 h hok
  have hall : -Real.pi < al := by rcases hid with ⟨h1, _, _, _⟩ | ⟨h1, _, _, _⟩ <;> rw [h1] <;>
    assumption
  have halr : al ≤ Real.pi := by rcases hid with ⟨h1, _, _, _⟩ | ⟨h1, _, _, _⟩ <;> rw [h1] <;>
    assumption
  have hbel : -Real.pi < be := by rcases hid with ⟨_, h1, _, _⟩ | ⟨_, h1, _, _⟩ <;> rw [h1] <;>
    assumption
  have hber : be ≤ Real.pi := by rcases hid with ⟨_, h1, _, _⟩ | ⟨_, h1, _, _⟩ <;> rw [h1] <;>
    assumption
  have hw0 : 0 ≤ w0 := by rcases hid with ⟨_, _, h1, _⟩ | ⟨_, _, h1, _⟩ <;> rw [h1] <;> assumption
  have hw1 : 0 ≤ w1 := by rcases hid with ⟨_, _, _, h1⟩ | ⟨_, _, _, h1⟩ <;> rw [h1] <;> assumption
  have hsum : 0 < w0 + w1 := lt_of_le_of_ne (by linarith) (Ne.symm hzz)
  by_cases hbig : Real.pi < be - al
  · rw [if_pos hbig] at hval
    have hup : (w0 * (al + 2 * Real.pi) + w1 * be) / (w0 + w1) ≤ max (al + 2 * Real.pi) be :=
      wavg_le_max _ _ _ _ hw0 hw1 hsum
    have hlo : min (al + 2 * Real.pi) be ≤ (w0 * (al + 2 * Real.pi) + w1 * be) / (w0 + w1) :=
      min_le_wavg _ _ _ _ hw0 hw1 hsum
    have hbe_lt : be ≤ al + 2 * Real.pi := by linarith
    rw [max_eq_left hbe_lt] at hup
    rw [min_eq_right hbe_lt] at hlo
    by_cases hover : Real.pi <
        (w0 * (al + 2 * Real.pi) + w1 * be) / (w0 + w1)
    · rw [if_pos hover] at hval
      constructor <;> rw [hval] <;> [linarith; linarith]
    · rw [if_neg hover] at hval
      constructor <;> rw [hval] <;> [linarith; linarith]
  · rw [if_neg hbig] at hval
    have hup : (w0 * al + w1 * be) / (w0 + w1) ≤ max al be :=
      wavg_le_max _ _ _ _ hw0 hw1 hsum
    have hlo : min al be ≤ (w0 * al + w1 * be) / (w0 + w1) :=
      min_le_wavg _ _ _ _ hw0 hw1 hsum
    rw [max_eq_right hle] at hup
    rw [min_eq_left hle] at hlo
    have hnover : ¬ Real.pi < (w0 * al + w1 * be) / (w0 + w1) := by
      push_neg; linarith
    rw [if_neg hnover] at hval
    constructor <;> rw [hval] <;> [linarith; linarith]

lemma atan2_antipode (y x : ℝ) (h : x ≠ 0 ∨ y ≠ 0) :
    atan2 (-y) (-x) = atan2 y x + Real.pi ∨ atan2 (-y) (-x) = atan2 y x - Real.pi := by
  rcases lt_trichotomy x 0 with hx | hx | hx
  · have hx2 : 0 < -x := by linarith
    have hdiv : (-y) / (-x) = y / x := neg_div_neg_eq y x
    rw [atan2_pos_x hx2, hdiv]
    unfold atan2
    rw [if_neg (not_lt.mpr hx.le), if_pos hx]
    by_cases hy : 0 ≤ y
    · rw [if_pos hy]; right; ring
    · rw [if_neg hy]; left; ring
  · subst hx
    have hy : y ≠ 0 := by tauto
    rcases lt_trichotomy y 0 with hyn | hy0 | hyp
    · have h1 : atan2 (-y) (-0) = Real.pi / 2 := by
        rw [neg_zero]; exact atan2_pos_y (by linarith)
      have h2 : atan2 y 0 = -(Real.pi / 2) := by
        unfold atan2
        rw [if_neg (lt_irrefl 0), if_neg (lt_irrefl 0), if_neg (not_lt.mpr hyn.le), if_pos hyn]
      rw [h1, h2]; left; ring
    · exact absurd hy0 hy
    · have h1 : atan2 y 0 = Real.pi / 2 := atan2_pos_y hyp
      have hyn2 : -y < 0 := by linarith
      have h2 : atan2 (-y) (-0) = -(Real.pi / 2) := by
        rw [neg_zero]
        unfold atan2
        rw [if_neg (lt_irrefl 0), if_neg (lt_irrefl 0), if_neg (not_lt.mpr hyn2.le),
          if_pos hyn2]
      rw [h1, h2]; right; ring
  · have hx2 : -x < 0 := by linarith
    have hdiv : (-y) / (-x) = y / x := neg_div_neg_eq y x
    rw [atan2_pos_x hx]
    unfold atan2
    rw [if_neg (not_lt.mpr hx2.le), if_pos hx2, hdiv]
    by_cases hy : 0 ≤ -y
    · rw [if_pos hy]; left; ring
    · rw [if_neg hy]; right; ring

/-! ### Evaluation lemmas on small inputs -/

lemma platform_headings_nil : platform_headings [] = .ok [none, none] := by
  simp [platform_headings, legSteps, legAngles, legDists, pairwise, interiorHeadings]

lemma platform_headings_single (p : Point) : platform_headings [p] = .ok [none, none] := by
  simp [platform_headings, legSteps, legAngles, legDists, pairwise, interiorHeadings]

lemma platform_headings_pair (p q : Point) : platform_headings [p, q] = .ok [none, none] := by
  simp [platform_headings, legSteps, legAngles, legDists, pairwise, interiorHeadings]

lemma platform_headings_triple (p q r : Point) (res : Option ℝ)
    (hstep : headingStep (atan2 (q.2 - p.2) (q.1 - p.1)) (atan2 (r.2 - q.2) (r.1 - q.1))
      (Real.sqrt ((q.1 - p.1) ^ 2 + (q.2 - p.2) ^ 2))
      (Real.sqrt ((r.1 - q.1) ^ 2 + (r.2 - q.2) ^ 2)) = .ok res) :
    platform_headings [p, q, r] = .ok [none, res, none] := by
  simp [platform_headings, legSteps, legAngles, legDists, pairwise, interiorHeadings, hstep]

lemma platform_headings_triple_error (p q r : Point)
    (hstep : headingStep (atan2 (q.2 - p.2) (q.1 - p.1)) (atan2 (r.2 - q.2) (r.1 - q.1))
      (Real.sqrt ((q.1 - p.1) ^ 2 + (q.2 - p.2) ^ 2))
      (Real.sqrt ((r.1 - q.1) ^ 2 + (r.2 - q.2) ^ 2)) = .error ()) :
    platform_headings [p, q, r] = .error () := by
  simp [platform_headings, legSteps, legAngles, legDists, pairwise, interiorHeadings, hstep]

lemma headingStep_zero_zero : headingStep (0 : ℝ) 0 0 0 = .error () := by
  have hs2 : sort2 ((0 : ℝ), 0) (0, 0) = (((0 : ℝ), 0), ((0 : ℝ), 0)) := by
    unfold sort2; rw [if_neg (lt_irrefl (0 : ℝ)), if_neg (lt_irrefl (0 : ℝ)), if_pos (le_refl (0 : ℝ))]
  have hnc : ¬ isclose ((0 : ℝ) - 0) Real.pi := by rw [sub_self]; exact not_isclose_zero_pi
  simp only [headingStep, hs2]
  rw [if_neg hnc, if_pos (by norm_num : (0 : ℝ) + 0 = 0)]

lemma headingStep_degenerate_first (a1 d1 : ℝ) (hd : 0 < d1)
    (hl : -Real.pi < a1) (hr : a1 ≤ Real.pi)
    (hfar : ¬ isclose |a1| Real.pi) :
    headingStep 0 a1 0 d1 = .ok (some 0) := by
  have hpi := Real.pi_pos
  rcases lt_trichotomy (0 : ℝ) a1 with hlt | heq | hgt
  · have hs2 : sort2 ((0 : ℝ), d1) (a1, 0) = (((0 : ℝ), d1), (a1, 0)) := by
      unfold sort2; rw [if_pos hlt]
    have hnc : ¬ isclose (a1 - 0) Real.pi := by
      rw [sub_zero, ← abs_of_pos hlt]; exact hfar
    have hng : ¬ Real.pi < a1 - 0 := by rw [sub_zero]; exact not_lt.mpr hr
    have hsum : d1 + 0 ≠ 0 := by linarith
    have hav : (d1 * 0 + 0 * a1) / (d1 + 0) = 0 := by
      rw [div_eq_iff hsum]; ring
    simp only [headingStep, hs2]
    rw [if_neg hnc, if_neg hng, if_neg hsum, hav, if_neg (not_lt.mpr (le_of_lt hpi))]
  · rw [← heq]
    exact headingStep_same 0 0 d1 (by linarith) (by linarith)
  · have hs2 : sort2 ((0 : ℝ), d1) (a1, 0) = ((a1, 0), ((0 : ℝ), d1)) := by
      unfold sort2; rw [if_neg (asymm hgt), if_pos hgt]
    have hnc : ¬ isclose ((0 : ℝ) - a1) Real.pi := by
      rw [zero_sub, ← abs_of_neg hgt]; exact hfar
    have hng : ¬ Real.pi < (0 : ℝ) - a1 := not_lt.mpr (by linarith)
    have hsum : (0 : ℝ) + d1 ≠ 0 := by linarith
    have hav : ((0 : ℝ) * a1 + d1 * 0) / (0 + d1) = 0 := by
      rw [div_eq_iff hsum]; ring
    simp only [headingStep, hs2]
    rw [if_neg hnc, if_neg hng, if_neg hsum, hav, if_neg (not_lt.mpr (le_of_lt hpi))]

lemma ph_line3 :
    platform_headings [((0 : ℝ), 0), (1, 0), (2, 0)] = .ok [none, some 0, none] := by
  have h00 : headingStep (0 : ℝ) 0 1 1 = .ok (some 0) :=
    headingStep_same 0 1 1 (by norm_num) (le_of_lt Real.pi_pos)
  apply platform_headings_triple ((0 : ℝ), 0) (1, 0) (2, 0) (some 0)
  norm_num [atan2_zero_one, Real.sqrt_one, h00]

lemma sqrt_two_mul_half : Real.sqrt 2 * (Real.sqrt 2 / 2) = 1 := by
  rw [mul_div_assoc', Real.mul_self_sqrt (by norm_num : (0 : ℝ) ≤ 2)]
  norm_num

lemma offset_line3_c2 :
    offset_coords [((0 : ℝ), 0), (1, 0), (2, 0)] [none, some 0, none] 1 0 =
      [(0, 0, none, none), (1, 0, some 2, some 0), (2, 0, none, none)] := by
  norm_num [offset_coords, sensPoint, atan2_zero_one, Real.sqrt_one]

lemma offset_line3_c9 :
    offset_coords [((0 : ℝ), 0), (1, 0), (2, 0)] [none, some 0, none] 1 (-1) =
      [(0, 0, none, none), (1, 0, some 2, some (-1)), (2, 0, none, none)] := by
  have hr : Real.sqrt ((-1 : ℝ) ^ 2 + 1 ^ 2) = Real.sqrt 2 := by norm_num
  norm_num [offset_coords, sensPoint, atan2_neg_one_one, hr, Real.cos_neg, Real.sin_neg,
    Real.cos_pi_div_four, Real.sin_pi_div_four, sqrt_two_mul_half]

lemma offset_mismatch :
    offset_coords [((0 : ℝ), 0), (1, 1)] [some 0] 1 0 = [(0, 0, some 1, some 0)] := by
  norm_num [offset_coords, sensPoint, atan2_zero_one, Real.sqrt_one]

lemma sens_pair_zero :
    sensor_coordinates [((0 : ℝ), 0), (1, 0)] 0 0 =
      .ok [(0, 0, none, none), (1, 0, none, none)] := by
  simp only [sensor_coordinates, platform_headings_pair]
  norm_num [offset_coords, sensPoint]

/-! ### Claims -/

/-- Claim C1, counterexample: it is NOT true that running the pipeline with
offset `(0, 0)` returns the original point at every index.  On the points
`[(0,0), (1,0)]` both headings are NaN (edge convention), and since the code
has no `radius == 0` special case, `0 * cos(nan)` is NaN and both output
sensor coordinates are `(NaN, NaN)`, not the original points. -/
theorem C1_counterexample :
    ¬ (∀ (pts : List Point) (rows : List (ℝ × ℝ × Option ℝ × Option ℝ)),
        sensor_coordinates pts 0 0 = .ok rows →
        ∀ (i : ℕ) (p : Point), pts[i]? = some p →
          rows[i]? = some (p.1, p.2, some p.1, some p.2)) := by
  intro hcl
  have h := hcl [((0 : ℝ), 0), (1, 0)] [(0, 0, none, none), (1, 0, none, none)]
    sens_pair_zero 0 ((0 : ℝ), 0) rfl
  simp at h

/-- Claim C1, amended: with offset `(0, 0)` the projector returns the
original coordinates exactly at every index whose heading is defined
(non-NaN); at every NaN-heading index (always the first and last points) the
output sensor coordinates are `(NaN, NaN)` — there is no `radius == 0`
bypass of the heading term in the code. -/
theorem C1_amended_zero_offset (pts : List Point) (headings : List (Option ℝ)) :
    offset_coords pts headings 0 0 =
      (pts.zip headings).map (fun ph =>
        (ph.1.1, ph.1.2, ph.2.map (fun _ => ph.1.1), ph.2.map (fun _ => ph.1.2))) := by
  simp only [offset_coords]
  rw [show Real.sqrt ((0 : ℝ) ^ 2 + 0 ^ 2) = 0 by norm_num]
  apply List.map_congr_left
  intro ph _
  cases hph : ph.2 with
  | none => simp [sensPoint, hph]
  | some a => simp [sensPoint, hph]

/-- Claim C7, counterexample: `offset_coords` called with a heading list
shorter than the point list does not fail; it silently returns a normal
(truncated) result. -/
theorem C7_counterexample :
    ([((0 : ℝ), 0), (1, 1)] : List Point).length ≠
      ([some (0 : ℝ)] : List (Option ℝ)).length ∧
    offset_coords [((0 : ℝ), 0), (1, 1)] [some 0] 1 0 = [(0, 0, some 1, some 0)] :=
  ⟨by norm_num, offset_mismatch⟩

/-- Claim C7, amended: `offset_coords` performs no length validation at all:
it zips its two sequence arguments, truncating to the shorter one, so a
mismatched call is silently accepted and yields
`min (len points) (len headings)` rows. -/
theorem C7_amended_zip_truncates (pts : List Point) (headings : List (Option ℝ))
    (ioff loff : ℝ) :
    (offset_coords pts headings ioff loff).length = min pts.length headings.length := by
  simp [offset_coords]

/-- Claim C8, counterexample: `platform_headings` does not return a list of
the input's length for every input: on the empty list it returns the
two-element list `[nan, nan]`. -/
theorem C8_counterexample :
    ¬ (∀ (pts : List Point) (hs : List (Option ℝ)),
        platform_headings pts = .ok hs → hs.length = pts.length) := by
  intro hcl
  have h := hcl [] [none, none] platform_headings_nil
  simp at h

/-- Claim C8, amended: when `platform_headings` returns normally, its result
has length `max (len points) 2`: equal to the input length for inputs of
length ≥ 2, but always `[nan, nan]` (length 2) for inputs of length 0 or 1. -/
theorem C8_amended_length (pts : List Point) (hs : List (Option ℝ))
    (hok : platform_headings pts = .ok hs) : hs.length = max pts.length 2 :=
  platform_headings_ok_length pts hs hok

/-- Claim C8, witness for the amended theorem at the concrete input `[]`. -/
theorem C8_witness :
    platform_headings [] = .ok [none, none] ∧
    ([none, none] : List (Option ℝ)).length = max ([] : List Point).length 2 :=
  ⟨platform_headings_nil, C8_amended_length [] [none, none] platform_headings_nil⟩

/-- Claim C9: on the points `[(0,0), (1,0), (2,0)]` with offset
`(inline, lateral) = (1, -1)`, the heading at index 1 is `0` and the
corrected point at index 1 is exactly `(2, -1)`. -/
theorem C9_concrete_scenario :
    platform_headings [((0 : ℝ), 0), (1, 0), (2, 0)] = .ok [none, some 0, none] ∧
    (offset_coords [((0 : ℝ), 0), (1, 0), (2, 0)] [none, some 0, none] 1 (-1))[1]? =
      some ((1 : ℝ), (0 : ℝ), some (2 : ℝ), some (-1 : ℝ)) :=
  ⟨ph_line3, by rw [offset_line3_c9]; simp⟩

/-- Claim C10: for every input of length at least 2 on which
`platform_headings` returns normally, the heading at index 0 and at the last
index is NaN — the implementation fixes the NaN edge convention, never the
adjacent leg's raw angle. -/
theorem C10_edge_nan (pts : List Point) (hs : List (Option ℝ))
    (h2 : 2 ≤ pts.length) (hok : platform_headings pts = .ok hs) :
    hs[0]? = some none ∧ hs[pts.length - 1]? = some none := by
  obtain ⟨interior, hio, rfl⟩ := platform_headings_ok pts hs hok
  have hlen : interior.length = pts.length - 2 := by
    rw [interiorHeadings_ok_length _ _ hio, legSteps_length]
  refine ⟨by simp, ?_⟩
  rw [List.cons_append]
  have hidx : pts.length - 1 = interior.length + 1 := by omega
  rw [hidx, List.getElem?_cons_succ, List.getElem?_concat_length]

/-- Claim C10, witness at the concrete input `[(0,0), (1,0)]`. -/
theorem C10_witness :
    2 ≤ ([((0 : ℝ), 0), (1, 0)] : List Point).length ∧
    (([none, none] : List (Option ℝ))[0]? = some none ∧
      ([none, none] : List (Option ℝ))[([((0 : ℝ), 0), (1, 0)] : List Point).length - 1]? =
        some none) :=
  ⟨by norm_num,
    C10_edge_nan [((0 : ℝ), 0), (1, 0)] [none, none] (by norm_num)
      (platform_headings_pair _ _)⟩

/-- Claim C2: for any row of `offset_coords` whose sensor coordinates are
defined (equivalently, whose heading is non-NaN) and any non-zero offset
vector, the Euclidean distance between the corrected point and the original
point equals `hypot(inline, lateral)`, independently of the heading value. -/
theorem C2_distance_invariant (pts : List Point) (headings : List (Option ℝ))
    (ioff loff : ℝ) (i : ℕ) (x y xs ys : ℝ)
    (_hnz : ¬ (ioff = 0 ∧ loff = 0))
    (hrow : (offset_coords pts headings ioff loff)[i]? = some (x, y, some xs, some ys)) :
    Real.sqrt ((xs - x) ^ 2 + (ys - y) ^ 2) = Real.sqrt (ioff ^ 2 + loff ^ 2) := by
  simp only [offset_coords, List.getElem?_map] at hrow
  cases hz : (pts.zip headings)[i]? with
  | none => rw [hz] at hrow; cases hrow
  | some ph =>
    rw [hz] at hrow
    obtain ⟨⟨px, py⟩, pho⟩ := ph
    cases pho with
    | none => simp [sensPoint] at hrow
    | some a =>
      simp only [sensPoint, Option.map_some, Option.some.injEq, Prod.mk.injEq] at hrow
      obtain ⟨rfl, rfl, rfl, rfl⟩ := hrow
      apply congrArg Real.sqrt
      have htrig := Real.sin_sq_add_cos_sq (a + atan2 loff ioff)
      have hR : Real.sqrt (loff ^ 2 + ioff ^ 2) ^ 2 = loff ^ 2 + ioff ^ 2 :=
        Real.sq_sqrt (by positivity)
      linear_combination Real.sqrt (loff ^ 2 + ioff ^ 2) ^ 2 * htrig + hR

/-- Claim C2, witness at the straight-line input with offset `(1, 0)`. -/
theorem C2_witness :
    ¬ ((1 : ℝ) = 0 ∧ (0 : ℝ) = 0) ∧
    (offset_coords [((0 : ℝ), 0), (1, 0), (2, 0)] [none, some 0, none] 1 0)[1]? =
      some ((1 : ℝ), (0 : ℝ), some (2 : ℝ), some (0 : ℝ)) ∧
    Real.sqrt (((2 : ℝ) - 1) ^ 2 + ((0 : ℝ) - 0) ^ 2) =
      Real.sqrt ((1 : ℝ) ^ 2 + (0 : ℝ) ^ 2) := by
  have h1 : ¬ ((1 : ℝ) = 0 ∧ (0 : ℝ) = 0) := by norm_num
  have h2 : (offset_coords [((0 : ℝ), 0), (1, 0), (2, 0)] [none, some 0, none] 1 0)[1]? =
      some ((1 : ℝ), (0 : ℝ), some (2 : ℝ), some (0 : ℝ)) := by
    rw [offset_line3_c2]; simp
  exact ⟨h1, h2, C2_distance_invariant _ _ 1 0 1 1 0 2 0 h1 h2⟩

/-- Claim C4: every non-NaN heading produced by a normal run of
`platform_headings` lies in the half-open interval `(-π, π]`. -/
theorem C4_heading_range (pts : List Point) (hs : List (Option ℝ)) (h : ℝ)
    (hok : platform_headings pts = .ok hs) (hmem : some h ∈ hs) :
    -Real.pi < h ∧ h ≤ Real.pi := by
  obtain ⟨interior, hio, rfl⟩ := platform_headings_ok pts hs hok
  have hmem2 : some h ∈ interior := by
    simp at hmem
    exact hmem
  obtain ⟨⟨⟨a0, a1⟩, d0, d1⟩, hstl, hstep⟩ := interiorHeadings_ok_mem _ _ hio (some h) hmem2
  simp only [legSteps] at hstl
  obtain ⟨hsta, hstd⟩ := List.of_mem_zip hstl
  obtain ⟨hm0, hm1⟩ := pairwise_mem _ _ hsta
  obtain ⟨hn0, hn1⟩ := pairwise_mem _ _ hstd
  have hang : ∀ a ∈ legAngles pts, -Real.pi < a ∧ a ≤ Real.pi := by
    intro a ha
    simp only [legAngles, List.mem_map] at ha
    obtain ⟨pq, _, rfl⟩ := ha
    exact atan2_range _ _
  have hdst : ∀ d ∈ legDists pts, 0 ≤ d := by
    intro d hd
    simp only [legDists, List.mem_map] at hd
    obtain ⟨pq, _, rfl⟩ := hd
    exact Real.sqrt_nonneg _
  exact headingStep_ok_range a0 a1 d0 d1 h (hang a0 hm0).1 (hang a0 hm0).2
    (hang a1 hm1).1 (hang a1 hm1).2 (hdst d0 hn0) (hdst d1 hn1) hstep

/-- Claim C4, witness at the straight-line input. -/
theorem C4_witness :
    platform_headings [((0 : ℝ), 0), (1, 0), (2, 0)] = .ok [none, some 0, none] ∧
    some (0 : ℝ) ∈ ([none, some 0, none] : List (Option ℝ)) ∧
    (-Real.pi < (0 : ℝ) ∧ (0 : ℝ) ≤ Real.pi) :=
  ⟨ph_line3, by simp, C4_heading_range _ _ 0 ph_line3 (by simp)⟩

/-- Claim C5: for distinct points `A` and `B`, the traverse `[A, B, A]`
(forward then directly backward) produces a NaN heading at the middle point:
the two leg angles differ by exactly `π` and the `isclose` test fires. -/
theorem C5_opposite_legs (A B : Point) (hne : A ≠ B) :
    platform_headings [A, B, A] = .ok [none, none, none] := by
  obtain ⟨ax, ay⟩ := A
  obtain ⟨bx, by'⟩ := B
  have hpi := Real.pi_pos
  have hnz : bx - ax ≠ 0 ∨ by' - ay ≠ 0 := by
    by_contra hc
    push_neg at hc
    obtain ⟨h1, h2⟩ := hc
    apply hne
    have e1 : ax = bx := by linarith
    have e2 : ay = by' := by linarith
    rw [Prod.mk.injEq]
    exact ⟨e1, e2⟩
  have hant := atan2_antipode (by' - ay) (bx - ax) hnz
  have hdiff : max (atan2 (by' - ay) (bx - ax)) (atan2 (-(by' - ay)) (-(bx - ax)))
      - min (atan2 (by' - ay) (bx - ax)) (atan2 (-(by' - ay)) (-(bx - ax))) = Real.pi := by
    rcases hant with h1 | h1 <;> rw [h1]
    · rw [max_eq_right (by linarith), min_eq_left (by linarith)]; ring
    · rw [max_eq_left (by linarith), min_eq_right (by linarith)]; ring
  apply platform_headings_triple
  show headingStep (atan2 (by' - ay) (bx - ax)) (atan2 (ay - by') (ax - bx))
      (Real.sqrt ((bx - ax) ^ 2 + (by' - ay) ^ 2))
      (Real.sqrt ((ax - bx) ^ 2 + (ay - by') ^ 2)) = .ok none
  rw [show ay - by' = -(by' - ay) by ring, show ax - bx = -(bx - ax) by ring]
  exact headingStep_opposite _ _ _ _ hdiff

/-- Claim C5, witness at `A = (0,0)`, `B = (1,0)`. -/
theorem C5_witness :
    (((0 : ℝ), (0 : ℝ)) : Point) ≠ ((1 : ℝ), (0 : ℝ)) ∧
    platform_headings [((0 : ℝ), 0), (1, 0), (0, 0)] = .ok [none, none, none] := by
  have hne : (((0 : ℝ), (0 : ℝ)) : Point) ≠ ((1 : ℝ), (0 : ℝ)) := by
    norm_num [Prod.ext_iff]
  exact ⟨hne, C5_opposite_legs _ _ hne⟩

lemma sqrt_four : Real.sqrt 4 = 2 := by
  rw [show (4 : ℝ) = 2 ^ 2 by norm_num, Real.sqrt_sq (by norm_num : (0 : ℝ) ≤ 2)]

lemma not_isclose_half_pi_pi : ¬ isclose (Real.pi / 2) Real.pi := by
  have hpi := Real.pi_pos
  apply not_isclose_of_gap
  rw [abs_of_nonneg (by linarith : (0 : ℝ) ≤ Real.pi / 2), abs_of_nonneg hpi.le,
    max_eq_right (by linarith : Real.pi / 2 ≤ Real.pi),
    abs_of_nonpos (by linarith : Real.pi / 2 - Real.pi ≤ 0)]
  nlinarith

lemma legAngles_bend :
    legAngles [((0 : ℝ), 0), (1, 0), (1, 2)] = [0, Real.pi / 2] := by
  have h2 : atan2 (2 : ℝ) 0 = Real.pi / 2 := atan2_pos_y (by norm_num)
  norm_num [legAngles, pairwise, atan2_zero_one, h2]

lemma legDists_bend :
    legDists [((0 : ℝ), 0), (1, 0), (1, 2)] = [1, 2] := by
  norm_num [legDists, pairwise, Real.sqrt_one, sqrt_four]

/-- Claim C3: whenever `platform_headings` returns normally and interior
point `i+1` has non-degenerate, non-opposite adjacent legs with angles
`a0, a1` and lengths `d0, d1`, the heading it computes there is exactly the
spec's inverse-weighted circular average `(d1*a0 + d0*a1) / (d1 + d0)` (after
wraparound adjustment): the incoming angle is weighted by the outgoing leg
length and vice versa. -/
theorem C3_inverse_leg_weighting (pts : List Point) (hs : List (Option ℝ)) (i : ℕ)
    (a0 a1 d0 d1 : ℝ)
    (hok : platform_headings pts = .ok hs)
    (ha0 : (legAngles pts)[i]? = some a0) (ha1 : (legAngles pts)[i + 1]? = some a1)
    (hd0 : (legDists pts)[i]? = some d0) (hd1 : (legDists pts)[i + 1]? = some d1)
    (hpos0 : 0 < d0) (hpos1 : 0 < d1)
    (hopp : ¬ isclose (max a0 a1 - min a0 a1) Real.pi) :
    hs[i + 1]? = some (some (specWeightedAvg a0 a1 d0 d1)) := by
  obtain ⟨interior, hio, rfl⟩ := platform_headings_ok pts hs hok
  have hsteps : (legSteps pts)[i]? = some ((a0, a1), (d0, d1)) :=
    zip_getElem? _ _ i _ _ (pairwise_getElem? _ i a0 a1 ha0 ha1)
      (pairwise_getElem? _ i d0 d1 hd0 hd1)
  obtain ⟨h, hh, hstep⟩ := interiorHeadings_ok_getElem? _ _ hio i _ hsteps
  have hval : headingStep a0 a1 d0 d1 = .ok h := hstep
  rw [headingStep_eq_spec a0 a1 d0 d1 hpos0 hpos1 hopp] at hval
  have hinj : some (specWeightedAvg a0 a1 d0 d1) = h := by
    injection hval
  rw [← hinj] at hh
  have hilen : i < interior.length := by
    obtain ⟨hlt, _⟩ := List.getElem?_eq_some_iff.mp hh
    exact hlt
  rw [List.cons_append, List.getElem?_cons_succ, List.getElem?_append_left hilen]
  exact hh

/-- Claim C3, witness: the bend `[(0,0), (1,0), (1,2)]` with legs of angles
`0, π/2` and lengths `1, 2`. -/
theorem C3_witness :
    platform_headings [((0 : ℝ), 0), (1, 0), (1, 2)] =
      .ok [none, some (specWeightedAvg 0 (Real.pi / 2) 1 2), none] ∧
    ([none, some (specWeightedAvg 0 (Real.pi / 2) 1 2), none] :
      List (Option ℝ))[0 + 1]? = some (some (specWeightedAvg 0 (Real.pi / 2) 1 2)) := by
  have hpi := Real.pi_pos
  have hopp : ¬ isclose (max (0 : ℝ) (Real.pi / 2) - min (0 : ℝ) (Real.pi / 2)) Real.pi := by
    rw [max_eq_right (by linarith : (0 : ℝ) ≤ Real.pi / 2),
      min_eq_left (by linarith : (0 : ℝ) ≤ Real.pi / 2), sub_zero]
    exact not_isclose_half_pi_pi
  have hspec : headingStep 0 (Real.pi / 2) 1 2 =
      .ok (some (specWeightedAvg 0 (Real.pi / 2) 1 2)) :=
    headingStep_eq_spec _ _ _ _ one_pos two_pos hopp
  have hok : platform_headings [((0 : ℝ), 0), (1, 0), (1, 2)] =
      .ok [none, some (specWeightedAvg 0 (Real.pi / 2) 1 2), none] := by
    apply platform_headings_triple
    show headingStep (atan2 (0 - 0) (1 - 0)) (atan2 (2 - 0) (1 - 1))
        (Real.sqrt ((1 - 0) ^ 2 + (0 - 0) ^ 2)) (Real.sqrt ((1 - 1) ^ 2 + (2 - 0) ^ 2)) = _
    have e1 : atan2 ((0 : ℝ) - 0) (1 - 0) = 0 := by norm_num [atan2_zero_one]
    have e2 : atan2 ((2 : ℝ) - 0) (1 - 1) = Real.pi / 2 := by
      norm_num
      exact atan2_pos_y (by norm_num)
    have e3 : Real.sqrt (((1 : ℝ) - 0) ^ 2 + (0 - 0) ^ 2) = 1 := by
      norm_num [Real.sqrt_one]
    have e4 : Real.sqrt (((1 : ℝ) - 1) ^ 2 + (2 - 0) ^ 2) = 2 := by
      norm_num [sqrt_four]
    rw [e1, e2, e3, e4]
    exact hspec
  refine ⟨hok, ?_⟩
  exact C3_inverse_leg_weighting _ _ 0 0 (Real.pi / 2) 1 2 hok
    (by rw [legAngles_bend]; rfl) (by rw [legAngles_bend]; rfl) (by rw [legDists_bend]; rfl)
    (by rw [legDists_bend]; rfl) one_pos two_pos hopp

/-- Claim C6, counterexample: `platform_headings` does not return normally
for every input geometry: on three identical consecutive points both adjacent
legs have length 0, the weighted average divides by `0 + 0`, and the code
raises `ZeroDivisionError` (the `.error` branch of the model) instead of
producing a NaN heading. -/
theorem C6_counterexample :
    ¬ (∀ pts : List Point, ∃ hs, platform_headings pts = .ok hs) := by
  intro hcl
  obtain ⟨hs, hok⟩ := hcl [((0 : ℝ), 0), (0, 0), (0, 0)]
  have herr : platform_headings [((0 : ℝ), 0), (0, 0), (0, 0)] = .error () := by
    apply platform_headings_triple_error
    norm_num [atan2_zero_zero, Real.sqrt_zero, headingStep_zero_zero]
  rw [herr] at hok
  cases hok

/-- Claim C6, amended: a zero-length leg's direction angle is
`atan2(0, 0) = 0`, not NaN, so the heading adjacent to a degenerate leg is in
general an ordinary real number: for `p ≠ q` with the direction of `q - p`
not within tolerance of `±π`, the traverse `[p, p, q]` gets the finite
heading `0` at its interior point.  Moreover `platform_headings` is not
exception-free: on three identical consecutive points the weight sum is zero
and the division raises `ZeroDivisionError`. -/
theorem C6_amended :
    (∀ p q : Point, p ≠ q →
      ¬ isclose |atan2 (q.2 - p.2) (q.1 - p.1)| Real.pi →
      platform_headings [p, p, q] = .ok [none, some 0, none]) ∧
    (∀ p : Point, platform_headings [p, p, p] = .error ()) := by
  constructor
  · rintro ⟨px, py⟩ ⟨qx, qy⟩ hne hfar
    have hnz : qx - px ≠ 0 ∨ qy - py ≠ 0 := by
      by_contra hc
      push_neg at hc
      obtain ⟨h1, h2⟩ := hc
      apply hne
      have e1 : px = qx := by linarith
      have e2 : py = qy := by linarith
      rw [Prod.mk.injEq]
      exact ⟨e1, e2⟩
    have hdpos : 0 < Real.sqrt ((qx - px) ^ 2 + (qy - py) ^ 2) := by
      apply Real.sqrt_pos.mpr
      rcases hnz with hh | hh
      · have h2 : 0 < (qx - px) ^ 2 := by
          rcases lt_or_gt_of_ne hh with h3 | h3 <;> nlinarith
        nlinarith [sq_nonneg (qy - py)]
      · have h2 : 0 < (qy - py) ^ 2 := by
          rcases lt_or_gt_of_ne hh with h3 | h3 <;> nlinarith
        nlinarith [sq_nonneg (qx - px)]
    apply platform_headings_triple
    show headingStep (atan2 (py - py) (px - px)) (atan2 (qy - py) (qx - px))
        (Real.sqrt ((px - px) ^ 2 + (py - py) ^ 2))
        (Real.sqrt ((qx - px) ^ 2 + (qy - py) ^ 2)) = .ok (some 0)
    rw [sub_self, sub_self, atan2_zero_zero,
      show Real.sqrt ((0 : ℝ) ^ 2 + 0 ^ 2) = 0 by norm_num]
    exact headingStep_degenerate_first _ _ hdpos (atan2_range _ _).1 (atan2_range _ _).2 hfar
  · intro p
    apply platform_headings_triple_error
    show headingStep (atan2 (p.2 - p.2) (p.1 - p.1)) (atan2 (p.2 - p.2) (p.1 - p.1))
        (Real.sqrt ((p.1 - p.1) ^ 2 + (p.2 - p.2) ^ 2))
        (Real.sqrt ((p.1 - p.1) ^ 2 + (p.2 - p.2) ^ 2)) = .error ()
    rw [sub_self, sub_self, atan2_zero_zero,
      show Real.sqrt ((0 : ℝ) ^ 2 + 0 ^ 2) = 0 by norm_num]
    exact headingStep_zero_zero

/-- Claim C6, witness for the amended theorem at `p = (0,0)`, `q = (1,0)`. -/
theorem C6_witness :
    platform_headings [((0 : ℝ), 0), (0, 0), (1, 0)] = .ok [none, some 0, none] ∧
    platform_headings [((0 : ℝ), 0), (0, 0), (0, 0)] = .error () := by
  constructor
  · apply C6_amended.1 ((0 : ℝ), 0) ((1 : ℝ), 0)
    · norm_num [Prod.ext_iff]
    · show ¬ isclose |atan2 ((0 : ℝ) - 0) ((1 : ℝ) - 0)| Real.pi
      rw [show ((0 : ℝ) - 0) = 0 by norm_num, show ((1 : ℝ) - 0) = 1 by norm_num,
        atan2_zero_one, abs_zero]
      exact not_isclose_zero_pi
  · exact C6_amended.2 ((0 : ℝ), 0)

end

end Sensoff
